import Mathlib

/-!
Verification of the conversation-extract archive tools
(`scripts/rename-extracts.py` and `scripts/update-extracts.py`).

Transcripts, file names and file contents are modelled as `List Char`
(named `Str` below).  Every regular-expression scan of the source is
translated into an explicit structural scanner with the same
leftmost-match and greedy/backtracking behaviour.  Python string
truthiness (`if s:`) is modelled by explicit non-emptiness tests, and
Python `str.strip`/`lstrip`/`rstrip` by the corresponding whitespace
trimmers over the ASCII whitespace set used by the scripts.
-/

set_option maxRecDepth 4000

abbrev Str := List Char

def chars (s : String) : Str := s.toList

/-- Python whitespace class (`\s` and the default of `str.strip`) restricted
to the ASCII characters that can occur in the transcripts. -/
def isPySpace (c : Char) : Bool :=
  c = ' ' || c = '\t' || c = '\n' || c = '\r' || c = '\x0b' || c = '\x0c'

/-- Python `str.lstrip()`. -/
def lstrip (s : Str) : Str := s.dropWhile isPySpace

/-- Python `str.rstrip()`. -/
def rstrip (s : Str) : Str := (s.reverse.dropWhile isPySpace).reverse

/-- Python `str.strip()`. -/
def pstrip (s : Str) : Str := rstrip (lstrip s)

def lowerStr (s : Str) : Str := s.map Char.toLower

/-- Index of the first occurrence of `pat` in `s` (Python `str.find`,
`None` when absent). -/
def findSub : Str → Str → Option Nat
  | s, pat =>
    if pat.isPrefixOf s then some 0
    else
      match s with
      | [] => none
      | _ :: t => (findSub t pat).map (· + 1)

/-- Python `pat in s`. -/
def containsSub (s pat : Str) : Bool := (findSub s pat).isSome

/-- Python `s.replace(pat, "")`: remove all leftmost non-overlapping
occurrences of `pat`.  Implemented with an explicit fuel equal to the
length of `s` so that it is structurally recursive. -/
def removeAllF : Nat → Str → Str → Str
  | 0, s, _ => s
  | _ + 1, [], _ => []
  | fuel + 1, c :: rest, pat =>
    if pat ≠ [] && pat.isPrefixOf (c :: rest) then
      removeAllF fuel (List.drop (pat.length - 1) rest) pat
    else
      c :: removeAllF fuel rest pat

def removeAll (s pat : Str) : Str := removeAllF s.length s pat

def digitChar (n : Nat) : Char := Char.ofNat (48 + n % 10)

/-- Two-digit zero-padded decimal rendering (`strftime` `%m`, `%d`). -/
def pad2 (n : Nat) : Str := [digitChar (n / 10 % 10), digitChar (n % 10)]

/-- Four-digit zero-padded decimal rendering (`strftime` `%Y`). -/
def pad4 (n : Nat) : Str :=
  [digitChar (n / 1000 % 10), digitChar (n / 100 % 10),
   digitChar (n / 10 % 10), digitChar (n % 10)]

/-- Decimal rendering of a natural number (Python `str(counter)`),
fuelled to stay structurally recursive. -/
def natDigitsF : Nat → Nat → Str
  | 0, _ => []
  | f + 1, n =>
    if n < 10 then [digitChar n]
    else natDigitsF f (n / 10) ++ [digitChar (n % 10)]

def natToDigits (n : Nat) : Str := natDigitsF (n + 1) n

/-- Largest `p` with `1 ≤ p ≤ bound` satisfying `f`, searching downwards. -/
def downSearch : Nat → (Nat → Bool) → Option Nat
  | 0, _ => none
  | p + 1, f => if f (p + 1) then some (p + 1) else downSearch p f

def isDigitChar (c : Char) : Bool := '0' ≤ c && c ≤ '9'

def digitVal (c : Char) : Nat := c.toNat - 48

/-! ## Calendar dates (`datetime` values) -/

structure PDate where
  y : Nat
  m : Nat
  d : Nat
deriving DecidableEq, Repr

/-- `datetime` comparison is lexicographic on (year, month, day). -/
def dle (a b : PDate) : Bool :=
  decide (a.y < b.y ∨ (a.y = b.y ∧ (a.m < b.m ∨ (a.m = b.m ∧ a.d ≤ b.d))))

def dlt (a b : PDate) : Bool :=
  decide (a.y < b.y ∨ (a.y = b.y ∧ (a.m < b.m ∨ (a.m = b.m ∧ a.d < b.d))))

def isLeap (y : Nat) : Bool := y % 4 = 0 && (y % 100 ≠ 0 || y % 400 = 0)

def daysInMonth (y m : Nat) : Nat :=
  if m = 2 then (if isLeap y then 29 else 28)
  else if m = 4 || m = 6 || m = 9 || m = 11 then 30
  else 31

/-- Month/day validity enforced by the `datetime` constructor. -/
def validCal (d : PDate) : Bool :=
  decide (1 ≤ d.m) && decide (d.m ≤ 12) && decide (1 ≤ d.d) &&
    decide (d.d ≤ daysInMonth d.y d.m)

/-- `datetime.strptime(_, "%Y-%m-%d")` (and `datetime(y, m, d)`) raise
`ValueError` unless the calendar fields are valid and the year positive. -/
def validDatetime (d : PDate) : Bool := validCal d && decide (1 ≤ d.y)

/-- The year guard of `extract_latest_date` together with `datetime`
construction validity: candidates kept by the scan. -/
def keepDate (d : PDate) : Bool :=
  validCal d && decide (2020 ≤ d.y) && decide (d.y ≤ 2030)

/-- Shape-only match of the regex `\d{4}-\d{2}-\d{2}` at the head of `s`,
returning the (unvalidated) numeric fields. -/
def parseDateAt : Str → Option PDate
  | a :: b :: c :: d :: '-' :: e :: f :: '-' :: g :: h :: _ =>
    if isDigitChar a && isDigitChar b && isDigitChar c && isDigitChar d &&
       isDigitChar e && isDigitChar f && isDigitChar g && isDigitChar h then
      some ⟨digitVal a * 1000 + digitVal b * 100 + digitVal c * 10 + digitVal d,
            digitVal e * 10 + digitVal f,
            digitVal g * 10 + digitVal h⟩
    else none
  | _ => none

/-- `re.finditer(r'(\d{4})-(\d{2})-(\d{2})', content)` with the
`try datetime(...)`/year-range filter of `extract_latest_date`:
leftmost, non-overlapping matches (a match consumes its ten characters). -/
def scanDates : Nat → Str → List PDate
  | 0, _ => []
  | fuel + 1, s =>
    match parseDateAt s with
    | some d =>
      (if keepDate d then [d] else []) ++ scanDates fuel (s.drop 10)
    | none =>
      match s with
      | [] => []
      | _ :: t => scanDates fuel t

def dmax (a b : PDate) : PDate := if dlt a b then b else a

/-- `extract_latest_date`: maximum of the surviving candidates. -/
def extractLatestDate (c : Str) : Option PDate :=
  match scanDates c.length c with
  | [] => none
  | d :: rest => some (rest.foldl dmax d)

/-- `process_file` lines 226-227: `if not end_date or end_date < start_date:
end_date = start_date`. -/
def computeEnd (c : Str) (sd : PDate) : PDate :=
  match extractLatestDate c with
  | none => sd
  | some m => if dlt m sd then sd else m

/-! ## Start date (`extract_start_date`) -/

inductive DateScan where
  | noMatch
  | invalid
  | found (d : PDate)
deriving DecidableEq, Repr

/-- Scanner for `re.search(r'^Date:\s*(\d{4}-\d{2}-\d{2})', content,
re.MULTILINE)` followed by `datetime.strptime`.  The boolean argument
tracks whether the current position is a line start.  `\s*` is greedy
and may cross newlines; since no whitespace character is a digit, the
greedy skip followed by the digit pattern is exact.  A shape match whose
fields `strptime` rejects raises `ValueError` (uncaught in the source),
modelled by `invalid`. -/
def startScan : Str → Bool → DateScan
  | [], _ => .noMatch
  | c :: t, ls =>
    if ls && (chars "Date:").isPrefixOf (c :: t) then
      match parseDateAt (((c :: t).drop 5).dropWhile isPySpace) with
      | some d => if validDatetime d then .found d else .invalid
      | none => startScan t (c = '\n')
    else startScan t (c = '\n')

def extractStartDate (c : Str) : DateScan := startScan c true

/-! ## Session identifiers -/

/-- The capture class `[a-f0-9-]` under `re.IGNORECASE`: the flag applies
to the whole pattern, so the class also matches `A-F`. -/
def isHexDash (c : Char) : Bool :=
  ('a' ≤ c && c ≤ 'f') || ('A' ≤ c && c ≤ 'F') ||
    ('0' ≤ c && c ≤ '9') || c = '-'

/-- The class `[a-f0-9]` of the filename patterns of
`extract_session_id_from_filename`, which are compiled *without*
`re.IGNORECASE` and so stay lowercase-only. -/
def isHexLower (c : Char) : Bool :=
  ('a' ≤ c && c ≤ 'f') || ('0' ≤ c && c ≤ '9')

/-- `re.search(r'Session ID:\s*([a-f0-9-]+)', content, re.IGNORECASE)`:
at each occurrence of the case-insensitive literal, skip whitespace
greedily and capture a maximal non-empty `[a-f0-9-]` run; if the run is
empty the engine moves to the next occurrence. -/
def sidScan : Str → Option Str
  | [] => none
  | c :: t =>
    if lowerStr ((c :: t).take 11) = chars "session id:" then
      let run := (((c :: t).drop 11).dropWhile isPySpace).takeWhile isHexDash
      if run ≠ [] then some run else sidScan t
    else sidScan t

/-- `extract_session_id` of `rename-extracts.py` (no truncation). -/
def extractSessionIdRename (c : Str) : Option Str := sidScan c

/-- `session_id.split('-')[0] if '-' in session_id else session_id`. -/
def truncateSid (run : Str) : Str :=
  if run.contains '-' then run.takeWhile (fun c => c ≠ '-') else run

/-- `extract_session_id_from_content` of `update-extracts.py`. -/
def extractSidContentU (c : Str) : Option Str := (sidScan c).map truncateSid

/-- First pattern of `extract_session_id_from_filename`:
`claude-conversation-\d{4}-\d{2}-\d{2}-([a-f0-9]{8,})`. -/
def fnameSidScan1 : Str → Option Str
  | [] => none
  | c :: t =>
    if (chars "claude-conversation-").isPrefixOf (c :: t) then
      let r := (c :: t).drop 20
      if (parseDateAt r).isSome && r.get? 10 = some '-' then
        let run := (r.drop 11).takeWhile isHexLower
        if decide (8 ≤ run.length) then some run else fnameSidScan1 t
      else fnameSidScan1 t
    else fnameSidScan1 t

/-- Second pattern of `extract_session_id_from_filename`:
`agent-([a-f0-9]{2,})`. -/
def fnameSidScan2 : Str → Option Str
  | [] => none
  | c :: t =>
    if (chars "agent-").isPrefixOf (c :: t) then
      let run := ((c :: t).drop 6).takeWhile isHexLower
      if decide (2 ≤ run.length) then some run else fnameSidScan2 t
    else fnameSidScan2 t

def extractSidFilenameU (name : Str) : Option Str :=
  match fnameSidScan1 name with
  | some r => some r
  | none => fnameSidScan2 name

/-- The two-tier session-id strategy of `update-extracts.py` (content
first, filename as fallback), with Python string truthiness: an empty
truncated id falls through to the filename tier. -/
def sessionKey (name content : Str) : Option Str :=
  match extractSidContentU content with
  | some s => if s ≠ [] then some s else extractSidFilenameU name
  | none => extractSidFilenameU name

/-! ## User notes -/

def userNotesStart : Str :=
  chars "<!-- USER NOTES - This section will be preserved on update -->"

def userNotesEnd : Str := chars "<!-- END USER NOTES -->"

/-- `extract_user_notes`: slice from the first occurrence of the start
sentinel to the end of the first occurrence of the end sentinel,
provided the latter starts strictly after the former. -/
def extractUserNotes (c : Str) : Option Str :=
  match findSub c userNotesStart, findSub c userNotesEnd with
  | some i, some j =>
    if i < j then some ((c.drop i).take (j + userNotesEnd.length - i)) else none
  | _, _ => none

/-- `merge_with_user_notes` (with Python truthiness of the notes). -/
def mergeWithUserNotes (newC : Str) (notes : Option Str) : Str :=
  match notes with
  | none => newC
  | some n =>
    if n = [] then newC else rstrip newC ++ chars "\n\n" ++ n ++ chars "\n"

/-! ## Project name (`extract_project_name`) -/

def isProjChar (c : Char) : Bool :=
  ('a' ≤ c && c ≤ 'z') || ('A' ≤ c && c ≤ 'Z') || isDigitChar c ||
    c = '_' || c = '-'

def isUpperAZ (c : Char) : Bool := 'A' ≤ c && c ≤ 'Z'

/-- After `X:\Users\`: a maximal non-empty run without backslash, then
the literal `\Projects\` (or `\Downloads\`), then a maximal non-empty
`[a-zA-Z0-9_-]` capture.  Returns the capture. -/
def userPathTail (folder : Str) (r : Str) : Option Str :=
  let seg := r.takeWhile (fun c => c ≠ '\\')
  if seg = [] then none
  else
    let r2 := r.drop seg.length
    if ('\\' :: folder ++ ['\\']).isPrefixOf r2 then
      let cap := (r2.drop (folder.length + 2)).takeWhile isProjChar
      if cap = [] then none else some cap
    else none

/-- `Working directory:\s*[A-Z]:\\Users\\[^\\]+\\<folder>\\([a-zA-Z0-9_-]+)`. -/
def wdScan (folder : Str) : Str → Option Str
  | [] => none
  | c :: t =>
    (if (chars "Working directory:").isPrefixOf (c :: t) then
      let r := ((c :: t).drop 18).dropWhile isPySpace
      match r with
      | d :: ':' :: '\\' :: 'U' :: 's' :: 'e' :: 'r' :: 's' :: '\\' :: rest =>
        if isUpperAZ d then
          match userPathTail folder rest with
          | some cap => some cap
          | none => wdScan folder t
        else wdScan folder t
      | _ => wdScan folder t
    else wdScan folder t)

/-- `C:\\Users\\[^\\]+\\Projects\\([a-zA-Z0-9_-]+)[\s\\"]`: like the above
but anchored on the literal `C:` and requiring one closing character. -/
def cuScan : Str → Option Str
  | [] => none
  | c :: t =>
    (if (chars "C:\\Users\\").isPrefixOf (c :: t) then
      let rest := (c :: t).drop 9
      let seg := rest.takeWhile (fun x => x ≠ '\\')
      if seg ≠ [] && (chars "\\Projects\\").isPrefixOf (rest.drop seg.length) then
        let afterP := (rest.drop seg.length).drop 10
        let cap := afterP.takeWhile isProjChar
        match cap, afterP.get? cap.length with
        | _ :: _, some cl =>
          if isPySpace cl || cl = '\\' || cl = '"' then some cap else cuScan t
        | _, _ => cuScan t
      else cuScan t
    else cuScan t)

/-- Validation applied to each pattern's capture:
`len(project) > 2 and len(project) < 50 and not project.startswith('-')`. -/
def projValid (p : Str) : Bool :=
  decide (2 < p.length) && decide (p.length < 50) && p.head? ≠ some '-'

/-- `extract_project_name`: the three patterns in priority order; an
invalid capture lets the next pattern try. -/
def extractProjectName (c : Str) : Option Str :=
  match wdScan (chars "Projects") c with
  | some p =>
    if projValid p then some p
    else
      match wdScan (chars "Downloads") c with
      | some q =>
        if projValid q then some q
        else match cuScan c with
             | some r => if projValid r then some r else none
             | none => none
      | none =>
        match cuScan c with
        | some r => if projValid r then some r else none
        | none => none
  | none =>
    match wdScan (chars "Downloads") c with
    | some q =>
      if projValid q then some q
      else match cuScan c with
           | some r => if projValid r then some r else none
           | none => none
    | none =>
      match cuScan c with
      | some r => if projValid r then some r else none
      | none => none

/-! ## Description and title -/

def sanChar (c : Char) : Bool :=
  ('a' ≤ c && c ≤ 'z') || isDigitChar c || c = '-'

def subChar (c : Char) : Char := if sanChar c then c else '-'

/-- `re.sub(r'-+', '-', _)`: collapse hyphen runs. -/
def collapseGo : Bool → Str → Str
  | _, [] => []
  | prevH, c :: rest =>
    if c = '-' then
      (if prevH then collapseGo true rest else '-' :: collapseGo true rest)
    else c :: collapseGo false rest

def lstripH (s : Str) : Str := s.dropWhile (fun c => c = '-')

def rstripH (s : Str) : Str := (s.reverse.dropWhile (fun c => c = '-')).reverse

/-- `sanitize_description`. -/
def sanitizeDescription (s : Str) : Str :=
  let a := (s.map Char.toLower).map subChar
  let b := collapseGo false a
  let c := rstripH (lstripH b)
  if c = [] then chars "conversation" else c.take 50

/-- `is_agent_session`. -/
def isAgentSession (content filename : Str) : Bool :=
  containsSub (lowerStr filename) (chars "agent-") ||
    containsSub ((lowerStr content).take 500) (chars "subagent")

/-- Given the text `r` following the heading literal, the capture of
`\s*\n\s*([^#\n][^\n]*)`: the capture starts at the largest `p` not past
the maximal whitespace run such that the skipped prefix contains a
newline and the character at `p` is neither `#` nor a newline (greedy
`\s*` with backtracking). -/
def msgCapture (r : Str) : Option Str :=
  let w := (r.takeWhile isPySpace).length
  match downSearch w (fun p =>
      (r.take p).contains '\n' &&
        match r.get? p with
        | some ch => ch ≠ '#' && ch ≠ '\n'
        | none => false) with
  | some p => some ((r.drop p).takeWhile (fun c => c ≠ '\n'))
  | none => none

/-- Leftmost match of `<lit>\s*\n\s*([^#\n][^\n]*)`. -/
def msgScan (lit : Str) : Str → Option Str
  | [] => none
  | c :: t =>
    if lit.isPrefixOf (c :: t) then
      match msgCapture ((c :: t).drop lit.length) with
      | some cap => some cap
      | none => msgScan lit t
    else msgScan lit t

/-- The first-user-message extraction of `generate_description`:
`## 👤 User` first, then the alternate `## Human`. -/
def firstUserMsg (content : Str) : Option Str :=
  match msgScan (chars "## 👤 User") content with
  | some cap => some cap
  | none => msgScan (chars "## Human") content

/-- Fallback tail of `generate_description`: project slug or the literal. -/
def fallbackDesc (projectName : Option Str) : Str :=
  match projectName with
  | some p => if p ≠ [] then sanitizeDescription p else chars "conversation"
  | none => chars "conversation"

/-- `generate_description`. -/
def generateDescription (content : Str) (projectName : Option Str)
    (filename : Str) : Str :=
  if isAgentSession content filename then
    match projectName with
    | some p =>
      if p ≠ [] && decide (p.length < 30) then
        let clean := sanitizeDescription p
        if clean ≠ [] && decide (2 < clean.length) then
          clean ++ chars "-subagent"
        else chars "subagent"
      else chars "subagent"
    | none => chars "subagent"
  else
    match firstUserMsg content with
    | some rawCap =>
      let firstMsg := (pstrip rawCap).take 200
      if firstMsg.head? = some '\x60' || firstMsg.head? = some '\x7b' ||
          containsSub firstMsg (chars "Caveat:") then
        fallbackDesc projectName
      else
        let low := lowerStr firstMsg
        if containsSub low (chars "excel") &&
            (containsSub low (chars "google") || containsSub low (chars "sheet")) then
          chars "excel-to-sheets-migration"
        else if containsSub low (chars "mitel") then
          chars "mitel-skill-development"
        else if containsSub low (chars "read") && containsSub low (chars "ai") then
          chars "read-ai-clone"
        else if containsSub low (chars "milestone") ||
            containsSub low (chars "powershell") then
          chars "milestone-powershell"
        else if containsSub low (chars "plugin") then
          chars "plugin-development"
        else if containsSub low (chars "test") then
          chars "testing"
        else if containsSub low (chars "bug") || containsSub low (chars "fix") then
          chars "bugfix"
        else if containsSub low (chars "feature") then
          chars "feature-development"
        else if containsSub low (chars "extract") &&
            containsSub low (chars "conversation") then
          chars "conversation-extraction"
        else fallbackDesc projectName
    | none => fallbackDesc projectName

/-- Python `str.title()` on the `[a-z0-9 ]` strings produced here:
capitalise a letter that follows a non-letter, lowercase the rest. -/
def titleGo : Bool → Str → Str
  | _, [] => []
  | prevAlpha, c :: t =>
    (if prevAlpha then c.toLower else c.toUpper) :: titleGo c.isAlpha t

/-- `description.replace('-', ' ').title()`. -/
def mkTitle (desc : Str) : Str :=
  titleGo false (desc.map (fun c => if c = '-' then ' ' else c))

/-! ## Frontmatter -/

/-- `strftime('%Y-%m-%d')`. -/
def dateISO (d : PDate) : Str := pad4 d.y ++ '-' :: pad2 d.m ++ '-' :: pad2 d.d

/-- `strftime('%m-%d-%Y')`. -/
def dateUS (d : PDate) : Str := pad2 d.m ++ '-' :: pad2 d.d ++ '-' :: pad4 d.y

/-- `create_frontmatter`. -/
def mkFrontmatter (sid title : Str) (sd ed : PDate) (proj : Option Str)
    (isSub : Bool) : Str :=
  chars "---\nsession_id: " ++ sid ++
  chars "\ntitle: \"" ++ title ++
  chars "\"\nstart_date: " ++ dateISO sd ++
  chars "\nend_date: " ++ dateISO ed ++
  (match proj with
   | some p => chars "\nproject: \"" ++ p ++ chars "\""
   | none => []) ++
  chars "\nconversation_type: \"" ++
  (if isSub then chars "subagent" else chars "conversation") ++
  chars "\"\nstatus: \"complete\"\nis_archived: false\nhas_actionable_outcomes: false\noutcome_summary: \"\"\nai_model: \"claude-opus-4-5\"\nis_reviewed: false\ntopics: []\nrelated_conversations: []\ntags: [claude-code, conversation]\n---\n"

/-- `^---\s*$` (MULTILINE) search used by `add_frontmatter_to_content`:
at a line start, `---` followed by whitespace that either contains a
newline or reaches the end of the string. -/
def dashOk (r : Str) : Bool :=
  (r.takeWhile isPySpace).contains '\n' || decide (r.dropWhile isPySpace = [])

/-- Offset of the first line start carrying a `^---\s*$` match. -/
def dashLineScan : Str → Bool → Option Nat
  | [], _ => none
  | c :: t, ls =>
    if ls && (chars "---").isPrefixOf (c :: t) && dashOk ((c :: t).drop 3) then
      some 0
    else (dashLineScan t (c = '\n')).map (· + 1)

/-- The frontmatter-stripping step of `add_frontmatter_to_content`:
`content[3 + end_match.end():].lstrip()`.  Because every character
between the end of the matched `---` line's dashes and the first
non-whitespace character is whitespace, dropping from just past the
dashes and `lstrip`-ing is exact. -/
def stripExisting (c : Str) : Str :=
  if (chars "---").isPrefixOf c then
    match dashLineScan (c.drop 3) true with
    | some i => lstrip ((c.drop 3).drop (i + 3))
    | none => c
  else c

def addFrontmatterToContent (content fm : Str) : Str := fm ++ stripExisting content

/-! ## Renamer workflow (`process_file`) -/

def mkFilename (sd ed : PDate) (desc : Str) : Str :=
  dateUS sd ++ chars "--" ++ dateUS ed ++ '-' :: desc ++ chars ".md"

def mkStem (sd ed : PDate) (desc : Str) : Str :=
  dateUS sd ++ chars "--" ++ dateUS ed ++ '-' :: desc

def mkCand (stem : Str) (n : Nat) : Str := stem ++ '-' :: natToDigits n ++ chars ".md"

/-- The collision `while` loop of `process_file`, fuelled by the number
of occupied names plus one. -/
def collideGo (occ : List Str) (self stem : Str) : Nat → Nat → Str
  | c, 0 => mkCand stem c
  | c, fuel + 1 =>
    let nm := mkCand stem c
    if decide (nm ∈ occ) && decide (nm ≠ self) then
      collideGo occ self stem (c + 1) fuel
    else nm

/-- `while new_path.exists() and new_path != filepath: ...` resolution. -/
def resolveCollision (occ : List Str) (self base stem : Str) : Str :=
  if decide (base ∈ occ) && decide (base ≠ self) then
    collideGo occ self stem 1 (occ.length + 1)
  else base

structure RenResult where
  newName : Str
  newContent : Str
  renamed : Bool
  frontmatter : Str
  description : Str
  sid : Str
  startD : PDate
  endD : PDate
  baseName : Str
  stemName : Str
deriving DecidableEq, Repr

inductive ProcResult where
  | noSid
  | noDate
  | badDate
  | ok (r : RenResult)
deriving DecidableEq, Repr

/-- The body of `process_file` after session id and start date have been
extracted (this part cannot fail). -/
def processCore (fname c : Str) (occ : List Str) (sid : Str) (sd : PDate) :
    RenResult :=
  let ed := computeEnd c sd
  let proj := extractProjectName c
  let desc := generateDescription c proj fname
  let title := mkTitle desc
  let isSub := isAgentSession c fname
  let fm := mkFrontmatter sid title sd ed proj isSub
  let base := mkFilename sd ed desc
  let stem := mkStem sd ed desc
  let finalName := resolveCollision occ fname base stem
  { newName := finalName
    newContent := fm ++ stripExisting c
    renamed := decide (finalName ≠ fname)
    frontmatter := fm
    description := desc
    sid := sid
    startD := sd
    endD := ed
    baseName := base
    stemName := stem }

/-- `process_file` (content given; `dry_run = False`).  `noSid` and
`noDate` are the two skip outcomes (`return None` with a log line);
`badDate` is the uncaught `ValueError` from `strptime` on a matched but
invalid `Date:` header. -/
def processFile (fname c : Str) (occ : List Str) : ProcResult :=
  match extractSessionIdRename c with
  | none => .noSid
  | some sid =>
    match extractStartDate c with
    | .noMatch => .noDate
    | .invalid => .badDate
    | .found sd => .ok (processCore fname c occ sid sd)

inductive RenTag where
  | skipNoSid
  | skipNoDate
  | processed
deriving DecidableEq, Repr

/-- Directory contents after a successful `process_file`: the original
name is unlinked when the target differs, the new name is present. -/
def afterOk (names : List Str) (old : Str) (r : RenResult) : List Str :=
  let n1 := if r.renamed then names.erase old else names
  if decide (r.newName ∈ n1) then n1 else r.newName :: n1

/-- The `main` loop of `rename-extracts.py` over the sorted file list;
`none` models the run dying on an uncaught `ValueError`. -/
def runRenamer : List (Str × Str) → List Str → Option (List RenTag × List Str)
  | [], names => some ([], names)
  | (nm, c) :: rest, names =>
    match processFile nm c names with
    | .noSid => (runRenamer rest names).map (fun p => (RenTag.skipNoSid :: p.1, p.2))
    | .noDate => (runRenamer rest names).map (fun p => (RenTag.skipNoDate :: p.1, p.2))
    | .badDate => none
    | .ok r => (runRenamer rest (afterOk names nm r)).map
        (fun p => (RenTag.processed :: p.1, p.2))

/-! ## Reconciler workflow (`update_extracts`) -/

structure AEntry where
  name : Str
  content : Str
deriving DecidableEq, Repr

def lookupIndex (m : List (Str × Str × Option Str)) (k : Str) :
    Option (Str × Option Str) :=
  (m.find? (fun p => decide (p.1 = k))).map (·.2)

def insertReplace (m : List (Str × Str × Option Str)) (k : Str)
    (v : Str × Option Str) : List (Str × Str × Option Str) :=
  if m.any (fun p => decide (p.1 = k)) then
    m.map (fun p => if p.1 = k then (k, v) else p)
  else m ++ [(k, v)]

/-- One file of the `get_existing_files` indexing loop. -/
def indexStep (m : List (Str × Str × Option Str)) (e : AEntry) :
    List (Str × Str × Option Str) :=
  match sessionKey e.name e.content with
  | some sid => insertReplace m sid (e.name, extractUserNotes e.content)
  | none => m

/-- `get_existing_files`: index session id → (path, user notes), later
files silently overwriting earlier ones on key collision. -/
def getExistingFiles (files : List AEntry) : List (Str × Str × Option Str) :=
  files.foldl indexStep []

structure RStats where
  updated : Nat
  newCount : Nat
  unchanged : Nat
  skipped : Nat
  notesKept : Nat
deriving DecidableEq, Repr

def zeroStats : RStats := ⟨0, 0, 0, 0, 0⟩

def bumpSkip (s : RStats) : RStats := { s with skipped := s.skipped + 1 }

def bumpUnch (s : RStats) : RStats := { s with unchanged := s.unchanged + 1 }

def bumpNew (s : RStats) : RStats := { s with newCount := s.newCount + 1 }

def bumpUpd (s : RStats) (kept : Bool) : RStats :=
  { s with updated := s.updated + 1,
           notesKept := s.notesKept + (if kept then 1 else 0) }

def notesTruthy : Option Str → Bool
  | none => false
  | some n => n ≠ []

structure RecState where
  files : List (Str × Str)
  stats : RStats
  writes : List (Str × Str)
deriving DecidableEq, Repr

def lookupA (σ : List (Str × Str)) (name : Str) : Str :=
  match σ.find? (fun p => decide (p.1 = name)) with
  | some p => p.2
  | none => []

def setA (σ : List (Str × Str)) (name v : Str) : List (Str × Str) :=
  if σ.any (fun p => decide (p.1 = name)) then
    σ.map (fun p => if p.1 = name then (name, v) else p)
  else σ ++ [(name, v)]

/-- `old_without_notes`: the existing content with the indexed notes
block textually removed and right-stripped (when the notes are truthy
and present), used for change detection. -/
def oldWithoutNotes (old : Str) (notes : Option Str) : Str :=
  match notes with
  | some n =>
    if n ≠ [] && containsSub old n then rstrip (removeAll old n) else old
  | none => old

/-- One iteration of the `for new_file in new_files` loop. -/
def reconStep (index : List (Str × Str × Option Str)) (st : RecState)
    (f : Str × Str) : RecState :=
  match sessionKey f.1 f.2 with
  | none => { st with stats := bumpSkip st.stats }
  | some sid =>
    match lookupIndex index sid with
    | some (path, notes) =>
      let old := lookupA st.files path
      let finalC := mergeWithUserNotes f.2 notes
      if rstrip f.2 = rstrip (oldWithoutNotes old notes) then
        { st with stats := bumpUnch st.stats }
      else
        { files := setA st.files path finalC
          stats := bumpUpd st.stats (notesTruthy notes)
          writes := st.writes ++ [(path, finalC)] }
    | none =>
      { files := setA st.files f.1 f.2
        stats := bumpNew st.stats
        writes := st.writes ++ [(f.1, f.2)] }

def updateLoop (index : List (Str × Str × Option Str)) :
    RecState → List (Str × Str) → RecState
  | st, [] => st
  | st, f :: rest => updateLoop index (reconStep index st f) rest

/-- `temp_path.glob("claude-conversation-*.md")`. -/
def globMatch (name : Str) : Bool :=
  (chars "claude-conversation-").isPrefixOf name &&
    (chars ".md").isSuffixOf name

/-- `update_extracts` after a successful extraction: index the archive,
then process every fresh file matching the glob. -/
def updateExtracts (entries : List AEntry) (freshAll : List (Str × Str)) :
    RecState :=
  let index := getExistingFiles entries
  let σ0 := entries.map (fun e => (e.name, e.content))
  updateLoop index ⟨σ0, zeroStats, []⟩ (freshAll.filter (fun f => globMatch f.1))

/-- The fresh transcript corresponding to an archived entry "with the
User Notes Block removed" (the removal the change detector performs). -/
def stripNotes (c : Str) : Str :=
  match extractUserNotes c with
  | some n => removeAll c n
  | none => c

/-! ## General helper lemmas -/

lemma findSub_sound {s pat : Str} {i : Nat} (h : findSub s pat = some i) :
    pat.isPrefixOf (s.drop i) = true := by
  induction s generalizing i with
  | nil =>
    rw [findSub] at h
    split at h
    · rename_i hp
      cases h
      simpa using hp
    · cases h
  | cons c t ih =>
    rw [findSub] at h
    split at h
    · rename_i hp
      cases h
      simpa using hp
    · cases hf : findSub t pat with
      | none => rw [hf] at h; cases h
      | some j =>
        rw [hf] at h
        cases h
        simpa using ih hf

lemma findSub_isSome {s pat : Str} (i : Nat)
    (h : pat.isPrefixOf (s.drop i) = true) : (findSub s pat).isSome = true := by
  induction s generalizing i with
  | nil =>
    rw [findSub]
    split
    · rfl
    · rename_i hp
      simp only [List.drop_nil] at h
      exact absurd h (by simpa using hp)
  | cons c t ih =>
    rw [findSub]
    split
    · rfl
    · rename_i hp
      cases i with
      | zero => exact absurd h (by simpa using hp)
      | succ j =>
        simp only [List.drop_succ_cons] at h
        have := ih j h
        cases hf : findSub t pat with
        | none => rw [hf] at this; cases this
        | some k => simp [hf]

lemma containsSub_append_mid (a n b : Str) :
    containsSub (a ++ (n ++ b)) n = true := by
  have hp : n.isPrefixOf ((a ++ (n ++ b)).drop a.length) = true := by
    rw [List.drop_left]
    exact List.isPrefixOf_iff_prefix.mpr (List.prefix_append n b)
  unfold containsSub
  exact findSub_isSome a.length hp

lemma dropWhile_head_not {p : Char → Bool} {l : List Char} {c : Char}
    (h : (l.dropWhile p).head? = some c) : p c = false := by
  induction l with
  | nil => cases h
  | cons x t ih =>
    rw [List.dropWhile_cons] at h
    split at h
    · exact ih h
    · rename_i hx
      cases h
      simpa using hx

lemma dropWhile_append_of_all {p : Char → Bool} {w l : List Char}
    (h : ∀ x ∈ w, p x = true) : (w ++ l).dropWhile p = l.dropWhile p := by
  induction w with
  | nil => rfl
  | cons x t ih =>
    have hx : p x = true := h x (by simp)
    simp only [List.cons_append, List.dropWhile_cons, hx, if_true]
    exact ih (fun y hy => h y (by simp [hy]))

lemma rstrip_append_ws {a w : Str} (h : ∀ x ∈ w, isPySpace x = true) :
    rstrip (a ++ w) = rstrip a := by
  unfold rstrip
  rw [List.reverse_append]
  rw [dropWhile_append_of_all (fun x hx => h x (by simpa using hx))]

lemma dropWhile_idem (p : Char → Bool) (l : List Char) :
    (l.dropWhile p).dropWhile p = l.dropWhile p := by
  induction l with
  | nil => rfl
  | cons c t ih =>
    rw [List.dropWhile_cons]
    split
    · exact ih
    · rename_i hc
      rw [List.dropWhile_cons, if_neg hc]

lemma rstrip_idem (s : Str) : rstrip (rstrip s) = rstrip s := by
  unfold rstrip
  rw [List.reverse_reverse, dropWhile_idem]

/-! ## Sanitizer lemmas (claim C4) -/

lemma subChar_san (c : Char) : sanChar (subChar c) = true := by
  unfold subChar
  split
  · assumption
  · rfl

lemma collapse_mem {P : Char → Prop} {l : Str} (hl : ∀ x ∈ l, P x)
    (hd : P '-') : ∀ b, ∀ x ∈ collapseGo b l, P x := by
  induction l with
  | nil => intro b x hx; cases hx
  | cons c t ih =>
    intro b x hx
    have ht : ∀ y ∈ t, P y := fun y hy => hl y (by simp [hy])
    rw [collapseGo] at hx
    split at hx
    · split at hx
      · exact ih ht true x hx
      · rcases List.mem_cons.mp hx with h | h
        · rw [h]; exact hd
        · exact ih ht true x h
    · rcases List.mem_cons.mp hx with h | h
      · rw [h]; exact hl c (by simp)
      · exact ih ht false x h

lemma rstripH_isPrefix (s : Str) : rstripH s <+: s := by
  have h := List.dropWhile_suffix (l := s.reverse) (fun c => decide (c = '-'))
  have h2 := List.reverse_prefix.mpr h
  rw [List.reverse_reverse] at h2
  exact h2

lemma head?_of_isPrefix {a b : Str} (h : a <+: b) (ha : a ≠ []) :
    b.head? = a.head? := by
  rcases h with ⟨t, rfl⟩
  cases a with
  | nil => exact absurd rfl ha
  | cons x xs => rfl

lemma mem_of_mem_rstripH {s : Str} {x : Char} (h : x ∈ rstripH s) : x ∈ s := by
  unfold rstripH at h
  rw [List.mem_reverse] at h
  have := (List.dropWhile_suffix (l := s.reverse) (fun c => c = '-')).subset h
  simpa using this

lemma mem_of_mem_lstripH {s : Str} {x : Char} (h : x ∈ lstripH s) : x ∈ s :=
  (List.dropWhile_suffix _).subset h

lemma lstripH_head {s : Str} {c : Char} (h : (lstripH s).head? = some c) :
    ¬ c = '-' := by
  have := dropWhile_head_not (p := fun c => decide (c = '-')) (by simpa [lstripH] using h)
  simpa using this

lemma rstripH_getLast {s : Str} {c : Char} (h : (rstripH s).getLast? = some c) :
    ¬ c = '-' := by
  unfold rstripH at h
  rw [List.getLast?_reverse] at h
  have := dropWhile_head_not (p := fun c => decide (c = '-')) (by simpa using h)
  simpa using this

lemma rstripH_head {s : Str} (hne : rstripH s ≠ []) :
    (rstripH s).head? = s.head? :=
  (head?_of_isPrefix (rstripH_isPrefix s) hne).symm

/-- Claim C4 (counterexample): on the 51-character input
`"aaa...a-b"` (49 `a`s, then `-b`), the sanitizer's output is non-empty
and ends with `'-'`: the 50-character truncation happens after the
hyphen trim, so the result can end with a hyphen, contradicting the
claim that the output never ends with `'-'`. -/
theorem claim_C4_counterexample :
    sanitizeDescription (List.replicate 49 'a' ++ chars "-b") ≠ [] ∧
      (sanitizeDescription (List.replicate 49 'a' ++ chars "-b")).getLast?
        = some '-' := by decide

/-- Claim C4 (amended): for every input, the sanitizer's output contains
only characters in `[a-z0-9-]`, is non-empty, has length at most 50, and
never starts with `'-'`; it never ends with `'-'` unless the 50-character
truncation cut the string (so whenever the output is shorter than 50
characters it does not end with `'-'`); and on an empty or
all-punctuation input (every character sanitizing to `'-'`) the output
is the literal `"conversation"`. -/
theorem claim_C4_amended (s : Str) :
    (∀ c ∈ sanitizeDescription s, sanChar c = true)
    ∧ sanitizeDescription s ≠ []
    ∧ (sanitizeDescription s).length ≤ 50
    ∧ (sanitizeDescription s).head? ≠ some '-'
    ∧ ((sanitizeDescription s).length < 50 →
        (sanitizeDescription s).getLast? ≠ some '-')
    ∧ ((∀ c ∈ s, subChar c.toLower = '-') →
        sanitizeDescription s = chars "conversation") := by
  have hall : ∀ x ∈ collapseGo false ((s.map Char.toLower).map subChar),
      sanChar x = true := by
    intro x hx
    refine collapse_mem (P := fun c => sanChar c = true) ?_ (by decide) false x hx
    intro y hy
    rcases List.mem_map.mp hy with ⟨z, _, rfl⟩
    exact subChar_san z
  have hconv : (∀ c ∈ s, subChar c.toLower = '-') →
      rstripH (lstripH (collapseGo false ((s.map Char.toLower).map subChar))) = [] := by
    intro h
    have hdash : ∀ x ∈ collapseGo false ((s.map Char.toLower).map subChar),
        x = '-' := by
      intro x hx
      refine collapse_mem (P := fun c => c = '-') ?_ rfl false x hx
      intro y hy
      rcases List.mem_map.mp hy with ⟨z, hz, rfl⟩
      rcases List.mem_map.mp hz with ⟨u, hu, rfl⟩
      exact h u hu
    have : lstripH (collapseGo false ((s.map Char.toLower).map subChar)) = [] := by
      rw [lstripH, List.dropWhile_eq_nil_iff]
      intro x hx
      simp [hdash x hx]
    rw [this]
    rfl
  unfold sanitizeDescription
  dsimp only
  split
  · rename_i hst
    refine ⟨by decide, by decide, by decide, by decide, by decide, fun _ => rfl⟩
  · rename_i hst
    set st := rstripH (lstripH (collapseGo false ((s.map Char.toLower).map subChar)))
      with hstdef
    have hmem : ∀ c ∈ st.take 50, sanChar c = true := by
      intro c hc
      have h1 : c ∈ st := (List.take_prefix 50 st).subset hc
      have h2 : c ∈ lstripH (collapseGo false ((s.map Char.toLower).map subChar)) :=
        mem_of_mem_rstripH h1
      exact hall c (mem_of_mem_lstripH h2)
    refine ⟨hmem, ?_, ?_, ?_, ?_, ?_⟩
    · rw [Ne, List.take_eq_nil_iff]
      simp [hst]
    · rw [List.length_take]
      exact Nat.min_le_left _ _
    · intro hc
      have hh : st.head? = some '-' := by
        cases hs2 : st with
        | nil => exact absurd hs2 hst
        | cons x xs =>
          rw [hs2] at hc
          simpa using hc
      have := rstripH_head (s := lstripH (collapseGo false ((s.map Char.toLower).map subChar))) hst
      rw [hstdef] at hh
      rw [this] at hh
      exact lstripH_head hh rfl
    · intro hlen hlast
      have hle : st.length < 50 := by
        rw [List.length_take] at hlen
        omega
      rw [List.take_of_length_le (Nat.le_of_lt hle)] at hlast
      exact rstripH_getLast hlast rfl
    · intro h
      exact absurd (hconv h) hst

/-! ## Date lemmas (claim C5) -/

lemma dle_iff (a b : PDate) : dle a b = true ↔
    (a.y < b.y ∨ (a.y = b.y ∧ (a.m < b.m ∨ (a.m = b.m ∧ a.d ≤ b.d)))) := by
  simp [dle]

lemma dlt_iff (a b : PDate) : dlt a b = true ↔
    (a.y < b.y ∨ (a.y = b.y ∧ (a.m < b.m ∨ (a.m = b.m ∧ a.d < b.d)))) := by
  simp [dlt]

lemma dle_refl (a : PDate) : dle a a = true := by
  rw [dle_iff]; omega

lemma dle_trans {a b c : PDate} (h1 : dle a b = true) (h2 : dle b c = true) :
    dle a c = true := by
  rw [dle_iff] at h1 h2 ⊢; omega

lemma dle_of_dlt {a b : PDate} (h : dlt a b = true) : dle a b = true := by
  rw [dlt_iff] at h; rw [dle_iff]; omega

lemma dle_of_not_dlt {a b : PDate} (h : ¬ dlt a b = true) : dle b a = true := by
  rw [dlt_iff] at h; rw [dle_iff]; omega

lemma dle_dmax_left (a b : PDate) : dle a (dmax a b) = true := by
  unfold dmax
  split
  · exact dle_of_dlt (by assumption)
  · exact dle_refl a

lemma dle_dmax_right (a b : PDate) : dle b (dmax a b) = true := by
  unfold dmax
  split
  · exact dle_refl b
  · exact dle_of_not_dlt (by assumption)

lemma dmax_cases (a b : PDate) : dmax a b = a ∨ dmax a b = b := by
  unfold dmax
  split
  · right; rfl
  · left; rfl

lemma foldl_dmax_ge_init : ∀ (l : List PDate) (a : PDate),
    dle a (l.foldl dmax a) = true := by
  intro l
  induction l with
  | nil => intro a; exact dle_refl a
  | cons b t ih =>
    intro a
    exact dle_trans (dle_dmax_left a b) (ih (dmax a b))

lemma foldl_dmax_ge_mem : ∀ (l : List PDate) (a x : PDate), x ∈ l →
    dle x (l.foldl dmax a) = true := by
  intro l
  induction l with
  | nil => intro a x hx; cases hx
  | cons b t ih =>
    intro a x hx
    rcases List.mem_cons.mp hx with h | h
    · rw [h]
      exact dle_trans (dle_dmax_right a b) (foldl_dmax_ge_init t (dmax a b))
    · exact ih (dmax a b) x h

lemma foldl_dmax_mem : ∀ (l : List PDate) (a : PDate),
    l.foldl dmax a = a ∨ l.foldl dmax a ∈ l := by
  intro l
  induction l with
  | nil => intro a; left; rfl
  | cons b t ih =>
    intro a
    rcases ih (dmax a b) with h | h
    · rcases dmax_cases a b with h2 | h2
      · left; rw [List.foldl_cons, h, h2]
      · right; rw [List.foldl_cons, h, h2]; simp
    · right
      rw [List.foldl_cons]
      simp [h]

lemma scanDates_succ (n : Nat) (s : Str) :
    scanDates (n + 1) s =
      match parseDateAt s with
      | some d => (if keepDate d then [d] else []) ++ scanDates n (s.drop 10)
      | none =>
        match s with
        | [] => []
        | _ :: t => scanDates n t := rfl

lemma scanDates_sound : ∀ (fuel : Nat) (s : Str) (d : PDate),
    d ∈ scanDates fuel s →
    (∃ p, parseDateAt (s.drop p) = some d) ∧ keepDate d = true := by
  intro fuel
  induction fuel with
  | zero => intro s d h; cases h
  | succ n ih =>
    intro s d h
    rw [scanDates_succ] at h
    split at h
    · rename_i d0 hparse
      rcases List.mem_append.mp h with h1 | h1
      · split at h1
        · rename_i hkeep
          rcases List.mem_singleton.mp h1 with rfl
          exact ⟨⟨0, by simpa using hparse⟩, hkeep⟩
        · cases h1
      · rcases ih (s.drop 10) d h1 with ⟨⟨p, hp⟩, hkeep⟩
        rw [List.drop_drop] at hp
        exact ⟨⟨10 + p, hp⟩, hkeep⟩
    · rename_i hparse
      split at h
      · cases h
      · rename_i c t
        rcases ih t d h with ⟨⟨p, hp⟩, hkeep⟩
        exact ⟨⟨p + 1, by simpa using hp⟩, hkeep⟩

/-- Claim C5 (counterexample): in
`"Date: 2020-01-01\nx 2020-12-2029-01-01\n"` the substring `2029-01-01`
(an in-range valid calendar date occurring at offset 27) is hidden from
the scan because the earlier overlapping match `2020-12-20` consumes its
first characters, so the persisted end date `2020-12-20` is not the
maximum over all `YYYY-MM-DD` dates found anywhere in the content. -/
theorem claim_C5_counterexample :
    extractStartDate (chars "Date: 2020-01-01\nx 2020-12-2029-01-01\n")
      = DateScan.found ⟨2020, 1, 1⟩
    ∧ computeEnd (chars "Date: 2020-01-01\nx 2020-12-2029-01-01\n") ⟨2020, 1, 1⟩
      = ⟨2020, 12, 20⟩
    ∧ parseDateAt ((chars "Date: 2020-01-01\nx 2020-12-2029-01-01\n").drop 27)
      = some ⟨2029, 1, 1⟩
    ∧ keepDate ⟨2029, 1, 1⟩ = true
    ∧ dlt ⟨2020, 12, 20⟩ ⟨2029, 1, 1⟩ = true := by decide

/-- Claim C5 (amended): the persisted end date is the maximum over the
left-to-right, non-overlapping `YYYY-MM-DD` matches (each match consumes
its ten characters, so an overlapping later date can be missed) that are
valid calendar dates with year in [2020, 2030], collapsing to the start
date when no candidate survives or the maximum is earlier than the start
date.  Concretely: the persisted end date is at least the start date and
at least every surviving scanned candidate; it is either the start date
or itself a scanned candidate; and every scanned candidate is a
year-bounded valid calendar date that does occur in the content. -/
theorem claim_C5_amended (c : Str) (sd : PDate) :
    dle sd (computeEnd c sd) = true
    ∧ (∀ d ∈ scanDates c.length c, dle d (computeEnd c sd) = true)
    ∧ (computeEnd c sd = sd ∨ computeEnd c sd ∈ scanDates c.length c)
    ∧ (∀ d ∈ scanDates c.length c,
        (∃ p, parseDateAt (c.drop p) = some d) ∧ keepDate d = true) := by
  refine ⟨?_, ?_, ?_, fun d hd => scanDates_sound c.length c d hd⟩
  · unfold computeEnd
    split
    · exact dle_refl sd
    · split
      · exact dle_refl sd
      · exact dle_of_not_dlt (by assumption)
  · intro d hd
    cases hl : extractLatestDate c with
    | none =>
      unfold extractLatestDate at hl
      split at hl
      · rename_i hnil
        rw [hnil] at hd
        cases hd
      · cases hl
    | some m =>
      have hdm : dle d m = true := by
        unfold extractLatestDate at hl
        split at hl
        · cases hl
        · rename_i d0 rest hcons
          injection hl with hl2
          rw [hcons] at hd
          rcases List.mem_cons.mp hd with h | h
          · rw [h, ← hl2]
            exact foldl_dmax_ge_init rest d0
          · rw [← hl2]
            exact foldl_dmax_ge_mem rest d0 d h
      unfold computeEnd
      rw [hl]
      dsimp only
      split
      · rename_i hlt
        exact dle_trans hdm (dle_of_dlt hlt)
      · exact hdm
  · cases hl : extractLatestDate c with
    | none =>
      left
      unfold computeEnd
      rw [hl]
    | some m =>
      unfold computeEnd
      rw [hl]
      dsimp only
      split
      · left; rfl
      · right
        unfold extractLatestDate at hl
        split at hl
        · cases hl
        · rename_i d0 rest hcons
          injection hl with hl2
          rw [hcons, ← hl2]
          rcases foldl_dmax_mem rest d0 with h | h
          · rw [h]; simp
          · simp [h]

/-- Claim C5 (witness): the spec's own example — a transcript containing
only `Date: 2026-01-13` plus the stray digits `30000101` — has persisted
end date 2026-01-13, and the amended theorem applies to it. -/
theorem claim_C5_witness :
    computeEnd (chars "Date: 2026-01-13\n30000101\n") ⟨2026, 1, 13⟩
      = ⟨2026, 1, 13⟩
    ∧ extractStartDate (chars "Date: 2026-01-13\n30000101\n")
      = DateScan.found ⟨2026, 1, 13⟩
    ∧ dle ⟨2026, 1, 13⟩
        (computeEnd (chars "Date: 2026-01-13\n30000101\n") ⟨2026, 1, 13⟩) = true :=
  ⟨by decide, by decide,
    (claim_C5_amended (chars "Date: 2026-01-13\n30000101\n") ⟨2026, 1, 13⟩).1⟩

/-! ## Collision policy (claim C6) -/

lemma collideGo_spec (occ : List Str) (self stem : Str) (N : Nat) :
    ∀ (fuel c : Nat), 1 ≤ c → c ≤ N → N < c + fuel →
    (∀ i, c ≤ i → i < N → (mkCand stem i ∈ occ ∧ mkCand stem i ≠ self)) →
    ¬ (mkCand stem N ∈ occ ∧ mkCand stem N ≠ self) →
    collideGo occ self stem c fuel = mkCand stem N := by
  intro fuel
  induction fuel with
  | zero =>
    intro c h1 hcN hlt
    omega
  | succ f ih =>
    intro c h1 hcN hlt hbusy hfree
    rw [collideGo]
    by_cases hc : c = N
    · rw [hc]
      rw [if_neg]
      simpa using hfree
    · have hcltN : c < N := by omega
      have hb := hbusy c (Nat.le_refl c) hcltN
      rw [if_pos (by simpa using hb)]
      exact ih (c + 1) (by omega) (by omega) (by omega)
        (fun i hi hiN => hbusy i (by omega) hiN) hfree

/-- Claim C6: when the computed target filename is occupied by a
different file, the Renamer takes the `-N` suffixed name with the
smallest positive integer `N` whose name is free or coincides with the
file's own path (provided such an `N` exists within the fuel bound
`occ.length + 1`, which always holds since candidate names are
distinct). -/
theorem claim_C6 (occ : List Str) (self base stem : Str) (N : Nat)
    (hbase : base ∈ occ ∧ base ≠ self)
    (h1 : 1 ≤ N)
    (hN : ¬ (mkCand stem N ∈ occ ∧ mkCand stem N ≠ self))
    (hmin : ∀ i, 1 ≤ i → i < N → (mkCand stem i ∈ occ ∧ mkCand stem i ≠ self))
    (hfuel : N ≤ occ.length + 1) :
    resolveCollision occ self base stem = mkCand stem N := by
  unfold resolveCollision
  rw [if_pos (by simpa using hbase)]
  exact collideGo_spec occ self stem N (occ.length + 1) 1 (Nat.le_refl 1) h1
    (by omega) hmin hN

/-- Claim C6 (witness): the spec's example — with
`01-01-2024--01-02-2024-topic.md` already present, a second distinct
session with the identical date range and description resolves to
`01-01-2024--01-02-2024-topic-1.md`. -/
theorem claim_C6_witness :
    resolveCollision [chars "01-01-2024--01-02-2024-topic.md"]
      (chars "claude-conversation-2024-01-01-abcd1234.md")
      (mkFilename ⟨2024, 1, 1⟩ ⟨2024, 1, 2⟩ (chars "topic"))
      (mkStem ⟨2024, 1, 1⟩ ⟨2024, 1, 2⟩ (chars "topic"))
    = chars "01-01-2024--01-02-2024-topic-1.md" := by
  have h := claim_C6 [chars "01-01-2024--01-02-2024-topic.md"]
    (chars "claude-conversation-2024-01-01-abcd1234.md")
    (mkFilename ⟨2024, 1, 1⟩ ⟨2024, 1, 2⟩ (chars "topic"))
    (mkStem ⟨2024, 1, 1⟩ ⟨2024, 1, 2⟩ (chars "topic"))
    1 (by decide) (Nat.le_refl 1) (by decide)
    (fun i hi hiN => absurd (Nat.lt_of_le_of_lt hi hiN) (by omega))
    (by omega)
  rw [h]
  decide

/-! ## Agent-session descriptions (claim C9) -/

lemma extractProjectName_valid {c : Str} {p : Str}
    (h : extractProjectName c = some p) : projValid p = true := by
  unfold extractProjectName at h
  repeat' split at h
  all_goals try (cases h)
  all_goals assumption

/-- Claim C9: for an agent/subagent session whose extracted project name
is `p` (hence `2 < |p| < 50`), the description is
`sanitize(p) ++ "-subagent"` exactly when `|p| < 30` and the sanitized
slug is longer than 2 characters, and is otherwise the literal
`"subagent"`; in particular every extracted project name of length 30
through 49 yields exactly `"subagent"`. -/
theorem claim_C9 (content fname p : Str)
    (hAgent : isAgentSession content fname = true)
    (hProj : extractProjectName content = some p) :
    (2 < p.length ∧ p.length < 50)
    ∧ generateDescription content (some p) fname =
        (if p.length < 30 ∧ 2 < (sanitizeDescription p).length then
          sanitizeDescription p ++ chars "-subagent"
        else chars "subagent")
    ∧ (30 ≤ p.length → generateDescription content (some p) fname = chars "subagent") := by
  have hv := extractProjectName_valid hProj
  unfold projValid at hv
  simp only [Bool.and_eq_true, decide_eq_true_eq] at hv
  obtain ⟨⟨h2, h50⟩, _⟩ := hv
  have hpne : p ≠ [] := by
    intro hnil
    rw [hnil] at h2
    simp at h2
  have hmain : generateDescription content (some p) fname =
      (if p.length < 30 ∧ 2 < (sanitizeDescription p).length then
        sanitizeDescription p ++ chars "-subagent"
      else chars "subagent") := by
    unfold generateDescription
    rw [if_pos hAgent]
    dsimp only
    by_cases h30 : p.length < 30
    · rw [if_pos (by simp [hpne, h30])]
      by_cases hcl : 2 < (sanitizeDescription p).length
      · have hclne : sanitizeDescription p ≠ [] := by
          intro hnil
          rw [hnil] at hcl
          simp at hcl
        rw [if_pos (by simp [hclne, hcl])]
        rw [if_pos ⟨h30, hcl⟩]
      · rw [if_neg (by simp [hcl])]
        rw [if_neg (by intro hc; exact hcl hc.2)]
    · rw [if_neg (by simp [h30])]
      rw [if_neg (by intro hc; exact h30 hc.1)]
  refine ⟨⟨h2, h50⟩, hmain, fun h30 => ?_⟩
  rw [hmain, if_neg (by intro hc; omega)]

/-- Claim C9 (witness): an agent session (`agent-` in the filename) with
a 30-character extracted project name yields exactly `"subagent"`. -/
theorem claim_C9_witness :
    generateDescription
      (chars "Working directory: C:\\Users\\u\\Projects\\abcdefghijklmnopqrstuvwxyz0123\n")
      (some (chars "abcdefghijklmnopqrstuvwxyz0123"))
      (chars "agent-1.md") = chars "subagent" :=
  (claim_C9
    (chars "Working directory: C:\\Users\\u\\Projects\\abcdefghijklmnopqrstuvwxyz0123\n")
    (chars "agent-1.md")
    (chars "abcdefghijklmnopqrstuvwxyz0123")
    (by decide) (by decide)).2.2 (by decide)

/-! ## Renamer skip conditions (claim C7) -/

def isSkipOutcome : ProcResult → Bool
  | .noSid => true
  | .noDate => true
  | _ => false

/-- Claim C7: per-file processing skips exactly when the content yields
no session id, or yields a session id but no `Date:` header match —
these are the only two skip outcomes — and on either skip the main loop
records the skip, performs no write, rename or deletion (the directory
contents passed to the remaining files are unchanged), and continues
with the rest of the files. -/
theorem claim_C7 (nm c : Str) (names : List Str) (rest : List (Str × Str)) :
    (isSkipOutcome (processFile nm c names) = true ↔
      (extractSessionIdRename c = none ∨
        (extractSessionIdRename c ≠ none ∧ extractStartDate c = DateScan.noMatch)))
    ∧ (processFile nm c names = ProcResult.noSid →
        runRenamer ((nm, c) :: rest) names =
          (runRenamer rest names).map (fun p => (RenTag.skipNoSid :: p.1, p.2)))
    ∧ (processFile nm c names = ProcResult.noDate →
        runRenamer ((nm, c) :: rest) names =
          (runRenamer rest names).map (fun p => (RenTag.skipNoDate :: p.1, p.2))) := by
  refine ⟨?_, ?_, ?_⟩
  · unfold processFile
    cases hs : extractSessionIdRename c with
    | none => simp [isSkipOutcome]
    | some sid =>
      cases hd : extractStartDate c with
      | noMatch => simp [isSkipOutcome]
      | invalid => simp [isSkipOutcome]
      | found d => simp [isSkipOutcome]
  · intro h
    rw [runRenamer, h]
  · intro h
    rw [runRenamer, h]

/-- Claim C7 (witness): a file with no session id is skipped and the run
continues (here: with an empty remainder). -/
theorem claim_C7_witness :
    runRenamer [(chars "x.md", chars "hello world")] [] =
      (runRenamer ([] : List (Str × Str)) []).map
        (fun p => (RenTag.skipNoSid :: p.1, p.2)) :=
  (claim_C7 (chars "x.md") (chars "hello world") [] []).2.1 (by decide)

/-! ## User-notes preservation (claim C1) -/

lemma extractUserNotes_shape {c n : Str} (h : extractUserNotes c = some n) :
    ∃ i j, findSub c userNotesStart = some i ∧ findSub c userNotesEnd = some j ∧
      i < j ∧ n = (c.drop i).take (j + userNotesEnd.length - i) := by
  unfold extractUserNotes at h
  split at h
  · rename_i i j hi hj
    split at h
    · rename_i hij
      injection h with h2
      exact ⟨i, j, hi, hj, hij, h2.symm⟩
    · cases h
  · cases h

lemma extractUserNotes_ne_nil {c n : Str} (h : extractUserNotes c = some n) :
    n ≠ [] := by
  obtain ⟨i, j, hi, _, hij, hn⟩ := extractUserNotes_shape h
  have hpre := findSub_sound hi
  have hd : c.drop i ≠ [] := by
    intro hnil
    rw [hnil] at hpre
    have : userNotesStart = [] := by simpa using hpre
    exact absurd this (by decide)
  rw [hn]
  rw [Ne, List.take_eq_nil_iff]
  push_neg
  constructor
  · have : 0 < userNotesEnd.length := by decide
    omega
  · exact hd

lemma extractUserNotes_contained {c n : Str} (h : extractUserNotes c = some n) :
    containsSub c n = true := by
  obtain ⟨i, j, hi, _, hij, hn⟩ := extractUserNotes_shape h
  have hp : n.isPrefixOf (c.drop i) = true := by
    rw [hn]
    exact List.isPrefixOf_iff_prefix.mpr (List.take_prefix _ _)
  unfold containsSub
  exact findSub_isSome i hp

/-- Claim C1: when reconciliation updates an existing archive entry whose
indexed User Notes Block is the block extracted from its current content
(the region from the start sentinel through the end sentinel), the file
is rewritten to exactly the right-stripped fresh content, a blank line,
and the notes block verbatim (plus a final newline) — so the block
survives, byte-identical, after the content that replaces the rest of
the file — and the update is counted with notes preserved. -/
theorem claim_C1 (index : List (Str × Str × Option Str)) (st : RecState)
    (fname fcontent sid path notes : Str)
    (hsid : sessionKey fname fcontent = some sid)
    (hlook : lookupIndex index sid = some (path, some notes))
    (hprov : extractUserNotes (lookupA st.files path) = some notes)
    (hchange : ¬ rstrip fcontent =
        rstrip (oldWithoutNotes (lookupA st.files path) (some notes))) :
    reconStep index st (fname, fcontent) =
      { files := setA st.files path
          (rstrip fcontent ++ chars "\n\n" ++ notes ++ chars "\n")
        stats := bumpUpd st.stats true
        writes := st.writes ++
          [(path, rstrip fcontent ++ chars "\n\n" ++ notes ++ chars "\n")] }
    ∧ containsSub (rstrip fcontent ++ chars "\n\n" ++ notes ++ chars "\n")
        notes = true := by
  have hne : notes ≠ [] := extractUserNotes_ne_nil hprov
  have hmerge : mergeWithUserNotes fcontent (some notes) =
      rstrip fcontent ++ chars "\n\n" ++ notes ++ chars "\n" := by
    unfold mergeWithUserNotes
    dsimp only
    rw [if_neg hne]
  constructor
  · unfold reconStep
    rw [hsid]
    dsimp only
    rw [hlook]
    dsimp only
    rw [if_neg hchange, hmerge]
    have hkept : notesTruthy (some notes) = true := by
      unfold notesTruthy
      simpa using hne
    rw [hkept]
  · have : rstrip fcontent ++ chars "\n\n" ++ notes ++ chars "\n" =
        (rstrip fcontent ++ chars "\n\n") ++ (notes ++ chars "\n") := by
      simp [List.append_assoc]
    rw [this]
    have h2 : (notes ++ chars "\n") = notes ++ chars "\n" := rfl
    have := containsSub_append_mid (rstrip fcontent ++ chars "\n\n")
      notes (chars "\n")
    simpa [List.append_assoc] using this

/-- Claim C1 (witness): a concrete update of an indexed entry with a
notes block — the rewritten content carries the block verbatim. -/
theorem claim_C1_witness :
    reconStep
      [(chars "ABCD1234",
        (chars "old.md",
         some (userNotesStart ++ chars "\nmy note\n" ++ userNotesEnd)))]
      ⟨[(chars "old.md",
         chars "# Old body\n\n" ++ userNotesStart ++ chars "\nmy note\n" ++
           userNotesEnd)],
       zeroStats, []⟩
      (chars "claude-conversation-2026-01-13-ABCD1234.md",
       chars "Session ID: ABCD1234\n# New body\n") =
      { files := setA
          [(chars "old.md",
            chars "# Old body\n\n" ++ userNotesStart ++ chars "\nmy note\n" ++
              userNotesEnd)]
          (chars "old.md")
          (rstrip (chars "Session ID: ABCD1234\n# New body\n") ++ chars "\n\n" ++
            (userNotesStart ++ chars "\nmy note\n" ++ userNotesEnd) ++ chars "\n")
        stats := bumpUpd zeroStats true
        writes := [(chars "old.md",
          rstrip (chars "Session ID: ABCD1234\n# New body\n") ++ chars "\n\n" ++
            (userNotesStart ++ chars "\nmy note\n" ++ userNotesEnd) ++ chars "\n")] }
    ∧ containsSub
        (rstrip (chars "Session ID: ABCD1234\n# New body\n") ++ chars "\n\n" ++
          (userNotesStart ++ chars "\nmy note\n" ++ userNotesEnd) ++ chars "\n")
        (userNotesStart ++ chars "\nmy note\n" ++ userNotesEnd) = true :=
  claim_C1
    [(chars "ABCD1234",
      (chars "old.md",
       some (userNotesStart ++ chars "\nmy note\n" ++ userNotesEnd)))]
    ⟨[(chars "old.md",
       chars "# Old body\n\n" ++ userNotesStart ++ chars "\nmy note\n" ++
         userNotesEnd)],
     zeroStats, []⟩
    (chars "claude-conversation-2026-01-13-ABCD1234.md")
    (chars "Session ID: ABCD1234\n# New body\n")
    (chars "ABCD1234")
    (chars "old.md")
    (userNotesStart ++ chars "\nmy note\n" ++ userNotesEnd)
    (by decide) (by decide) (by decide) (by decide)

/-! ## Change detection (claim C10) -/

/-- Claim C10: for a fresh file matched to an indexed entry, the change
detector compares the fresh content against the existing content with
the indexed User Notes Block textually removed, both right-stripped of
trailing whitespace; the step leaves the state untouched except for the
`unchanged` counter exactly when those right-stripped strings are equal,
and in particular whenever the notes-removed stored content and the
fresh content differ only by all-whitespace suffixes the entry is
counted unchanged and nothing is written. -/
theorem claim_C10 (index : List (Str × Str × Option Str)) (st : RecState)
    (fname fcontent sid path : Str) (notes : Option Str)
    (hsid : sessionKey fname fcontent = some sid)
    (hlook : lookupIndex index sid = some (path, notes)) :
    (reconStep index st (fname, fcontent) =
        { st with stats := bumpUnch st.stats } ↔
      rstrip fcontent = rstrip (oldWithoutNotes (lookupA st.files path) notes))
    ∧ (∀ core w1 w2 : Str, (∀ x ∈ w1, isPySpace x = true) →
        (∀ x ∈ w2, isPySpace x = true) →
        oldWithoutNotes (lookupA st.files path) notes = core ++ w1 →
        fcontent = core ++ w2 →
        reconStep index st (fname, fcontent) =
          { st with stats := bumpUnch st.stats }) := by
  have hstep : ∀ (heq : rstrip fcontent =
      rstrip (oldWithoutNotes (lookupA st.files path) notes)),
      reconStep index st (fname, fcontent) =
        { st with stats := bumpUnch st.stats } := by
    intro heq
    unfold reconStep
    rw [hsid]
    dsimp only
    rw [hlook]
    dsimp only
    rw [if_pos heq]
  refine ⟨⟨?_, hstep⟩, ?_⟩
  · intro h
    by_contra hne
    unfold reconStep at h
    rw [hsid] at h
    dsimp only at h
    rw [hlook] at h
    dsimp only at h
    rw [if_neg hne] at h
    have hstats := congrArg RecState.stats h
    dsimp only at hstats
    have hu := congrArg RStats.unchanged hstats
    unfold bumpUpd bumpUnch at hu
    dsimp only at hu
    omega
  · intro core w1 w2 hw1 hw2 hold hfc
    refine hstep ?_
    rw [hold, hfc, rstrip_append_ws hw2, rstrip_append_ws hw1]

/-- Claim C10 (witness): a stored entry (no notes) differing from the
fresh transcript only by a trailing newline is counted unchanged and not
rewritten. -/
theorem claim_C10_witness :
    reconStep [(chars "abcd", (chars "a.md", none))]
      ⟨[(chars "a.md", chars "Session ID: abcd\nbody\n")], zeroStats, []⟩
      (chars "claude-conversation-2026-01-13-abcd1234.md",
       chars "Session ID: abcd\nbody") =
      { files := [(chars "a.md", chars "Session ID: abcd\nbody\n")]
        stats := bumpUnch zeroStats
        writes := [] } :=
  (claim_C10 [(chars "abcd", (chars "a.md", none))]
    ⟨[(chars "a.md", chars "Session ID: abcd\nbody\n")], zeroStats, []⟩
    (chars "claude-conversation-2026-01-13-abcd1234.md")
    (chars "Session ID: abcd\nbody")
    (chars "abcd") (chars "a.md") none
    (by decide) (by decide)).2
    (chars "Session ID: abcd\nbody") (chars "\n") []
    (by decide) (by intro x hx; cases hx) (by decide) (by decide)

/-! ## Count accounting (claim C8) -/

def sum4 (s : RStats) : Nat := s.updated + s.newCount + s.unchanged + s.skipped

lemma reconStep_sum (index : List (Str × Str × Option Str)) (st : RecState)
    (f : Str × Str) :
    sum4 (reconStep index st f).stats = sum4 st.stats + 1 := by
  unfold reconStep
  dsimp only
  split
  · simp [sum4, bumpSkip]
    omega
  · split
    · split
      · simp [sum4, bumpUnch]
        omega
      · simp [sum4, bumpUpd]
        omega
    · simp [sum4, bumpNew]
      omega

lemma updateLoop_sum (index : List (Str × Str × Option Str)) :
    ∀ (fs : List (Str × Str)) (st : RecState),
    sum4 (updateLoop index st fs).stats = sum4 st.stats + fs.length := by
  intro fs
  induction fs with
  | nil => intro st; rfl
  | cons f rest ih =>
    intro st
    rw [updateLoop, ih, reconStep_sum]
    simp
    omega

/-- Claim C8: over a reconciliation run, every fresh Markdown file the
loop processes (the glob-matching files of the scratch directory) is
counted in exactly one of the four counts — their sum equals the number
of processed files — and a fresh file whose session id cannot be
extracted from content or filename is counted as skipped, with no write
and the loop continuing on the remaining files. -/
theorem claim_C8 (entries : List AEntry) (freshAll : List (Str × Str))
    (hGlob : ∀ f ∈ freshAll, globMatch f.1 = true) :
    sum4 (updateExtracts entries freshAll).stats = freshAll.length
    ∧ (∀ (index : List (Str × Str × Option Str)) (st : RecState)
        (nm c : Str) (rest : List (Str × Str)),
        sessionKey nm c = none →
        reconStep index st (nm, c) = { st with stats := bumpSkip st.stats }
        ∧ updateLoop index st ((nm, c) :: rest) =
            updateLoop index { st with stats := bumpSkip st.stats } rest) := by
  constructor
  · unfold updateExtracts
    have hfilter : freshAll.filter (fun f => globMatch f.1) = freshAll :=
      List.filter_eq_self.mpr hGlob
    rw [hfilter, updateLoop_sum]
    simp [sum4, zeroStats]
  · intro index st nm c rest hnone
    have hstep : reconStep index st (nm, c) =
        { st with stats := bumpSkip st.stats } := by
      unfold reconStep
      rw [hnone]
    exact ⟨hstep, by rw [updateLoop, hstep]⟩

/-- Claim C8 (witness): a two-file run — one sid-less file skipped, one
unmatched file copied as new — has counts summing to 2, and the step on
the sid-less file is exactly a skip. -/
theorem claim_C8_witness :
    sum4 (updateExtracts []
      [(chars "claude-conversation-2026-01-13-aaaa1111.md",
        chars "Session ID: aaaa1111\nbody\n"),
       (chars "claude-conversation-x.md", chars "no id\n")]).stats = 2
    ∧ reconStep [] ⟨[], zeroStats, []⟩ (chars "claude-conversation-x.md", chars "no id\n") =
        { files := [], stats := bumpSkip zeroStats, writes := ([] : List (Str × Str)) } :=
  ⟨(claim_C8 []
      [(chars "claude-conversation-2026-01-13-aaaa1111.md",
        chars "Session ID: aaaa1111\nbody\n"),
       (chars "claude-conversation-x.md", chars "no id\n")]
      (by decide)).1,
   ((claim_C8 []
      [(chars "claude-conversation-2026-01-13-aaaa1111.md",
        chars "Session ID: aaaa1111\nbody\n"),
       (chars "claude-conversation-x.md", chars "no id\n")]
      (by decide)).2 [] ⟨[], zeroStats, []⟩
      (chars "claude-conversation-x.md") (chars "no id\n") [] (by decide)).1⟩

/-! ## Idempotent reconciliation (claim C3) -/

def entryKey (e : AEntry) : Option Str := sessionKey e.name e.content

def keysOf (l : List AEntry) : List Str := l.filterMap entryKey

lemma lookup_insertReplace_self (m : List (Str × Str × Option Str))
    (k : Str) (v : Str × Option Str) :
    lookupIndex (insertReplace m k v) k = some v := by
  unfold insertReplace lookupIndex
  split
  · rename_i hany
    induction m with
    | nil => simp at hany
    | cons x t ih =>
      by_cases hx : x.1 = k
      · simp [List.find?_cons, hx]
      · simp only [List.map_cons, if_neg hx]
        rw [List.find?_cons_of_neg _ (by simpa using hx)]
        refine ih ?_
        simpa [hx] using hany
  · induction m with
    | nil => simp [List.find?_cons]
    | cons x t ih =>
      rename_i hany
      have hx : ¬ x.1 = k := by
        intro h
        exact hany (by simp [List.any_cons, h])
      simp only [List.cons_append]
      rw [List.find?_cons_of_neg _ (by simpa using hx)]
      refine ih ?_
      intro h
      exact hany (by simp [List.any_cons]; right; simpa using h)

lemma find?_map_ne (t : List (Str × Str × Option Str)) (k k' : Str)
    (v : Str × Option Str) (hne : k' ≠ k) :
    ((t.map (fun p => if p.1 = k then (k, v) else p)).find?
        (fun p => decide (p.1 = k'))) =
      t.find? (fun p => decide (p.1 = k')) := by
  induction t with
  | nil => rfl
  | cons x t ih =>
    by_cases hx : x.1 = k
    · simp only [List.map_cons, if_pos hx]
      rw [List.find?_cons_of_neg _ (by simpa using Ne.symm hne),
        List.find?_cons_of_neg _ (by rw [hx]; simpa using Ne.symm hne)]
      exact ih
    · simp only [List.map_cons, if_neg hx]
      by_cases hx' : x.1 = k'
      · rw [List.find?_cons_of_pos _ (by simpa using hx'),
          List.find?_cons_of_pos _ (by simpa using hx')]
      · rw [List.find?_cons_of_neg _ (by simpa using hx'),
          List.find?_cons_of_neg _ (by simpa using hx')]
        exact ih

lemma lookup_insertReplace_other (m : List (Str × Str × Option Str))
    (k k' : Str) (v : Str × Option Str) (hne : k' ≠ k) :
    lookupIndex (insertReplace m k v) k' = lookupIndex m k' := by
  unfold insertReplace lookupIndex
  split
  · rw [find?_map_ne m k k' v hne]
  · rw [List.find?_append]
    cases hf : (m.find? fun p => decide (p.1 = k')) with
    | some x => simp
    | none =>
      simp only [Option.none_or]
      rw [List.find?_cons_of_neg _ (by simpa using Ne.symm hne)]
      simp

lemma indexStep_none {e : AEntry} (m : List (Str × Str × Option Str))
    (h : sessionKey e.name e.content = none) : indexStep m e = m := by
  unfold indexStep
  rw [h]

lemma indexStep_some {e : AEntry} {s : Str} (m : List (Str × Str × Option Str))
    (h : sessionKey e.name e.content = some s) :
    indexStep m e = insertReplace m s (e.name, extractUserNotes e.content) := by
  unfold indexStep
  rw [h]

lemma keysOf_cons_none {e : AEntry} {t : List AEntry}
    (h : sessionKey e.name e.content = none) : keysOf (e :: t) = keysOf t := by
  unfold keysOf entryKey
  rw [List.filterMap_cons]
  rw [h]

lemma keysOf_cons_some {e : AEntry} {t : List AEntry} {s : Str}
    (h : sessionKey e.name e.content = some s) :
    keysOf (e :: t) = s :: keysOf t := by
  unfold keysOf entryKey
  rw [List.filterMap_cons]
  rw [h]

lemma getExistingFiles_go_untouched (rest : List AEntry) (k : Str)
    (hk : k ∉ keysOf rest) :
    ∀ m, lookupIndex (rest.foldl indexStep m) k = lookupIndex m k := by
  induction rest with
  | nil => intro m; rfl
  | cons e t ih =>
    intro m
    rw [List.foldl_cons]
    cases he : sessionKey e.name e.content with
    | none =>
      rw [keysOf_cons_none he] at hk
      rw [indexStep_none m he]
      exact ih hk m
    | some s =>
      rw [keysOf_cons_some he] at hk
      have hks : k ≠ s := by
        intro h
        exact hk (by rw [h]; simp)
      have hkt : k ∉ keysOf t := by
        intro h
        exact hk (by simp [h])
      rw [indexStep_some m he]
      rw [ih hkt]
      exact lookup_insertReplace_other m s k _ hks

lemma lookup_getExistingFiles {entries : List AEntry} {e : AEntry} {k : Str}
    (hNodup : (keysOf entries).Nodup)
    (hmem : e ∈ entries) (hk : entryKey e = some k) :
    lookupIndex (getExistingFiles entries) k =
      some (e.name, extractUserNotes e.content) := by
  obtain ⟨pre, post, rfl⟩ := List.append_of_mem hmem
  have hk2 : sessionKey e.name e.content = some k := hk
  have hkeys : keysOf (pre ++ e :: post) =
      keysOf pre ++ k :: keysOf post := by
    unfold keysOf
    rw [List.filterMap_append]
    rw [show List.filterMap entryKey (e :: post) = k :: List.filterMap entryKey post
      from keysOf_cons_some hk2]
  rw [hkeys] at hNodup
  have hpost : k ∉ keysOf post := by
    have h2 := (List.nodup_append.mp hNodup).2.1
    exact (List.nodup_cons.mp h2).1
  unfold getExistingFiles
  rw [List.foldl_append, List.foldl_cons]
  rw [getExistingFiles_go_untouched post k hpost]
  have hk2 : sessionKey e.name e.content = some k := hk
  rw [indexStep_some _ hk2]
  exact lookup_insertReplace_self _ k _

lemma lookupA_map {entries : List AEntry} {e : AEntry}
    (hNames : (entries.map (·.name)).Nodup) (hmem : e ∈ entries) :
    lookupA (entries.map (fun x => (x.name, x.content))) e.name = e.content := by
  obtain ⟨pre, post, rfl⟩ := List.append_of_mem hmem
  rw [List.map_append] at hNames
  have hdisj := List.disjoint_of_nodup_append hNames
  have hpre : ∀ x ∈ pre, ¬ x.name = e.name := by
    intro x hx hxe
    exact hdisj (a := e.name) (by rw [← hxe]; exact List.mem_map_of_mem _ hx)
      (by simp)
  unfold lookupA
  rw [List.map_append, List.find?_append]
  have hnone : ((pre.map (fun x => (x.name, x.content))).find?
      (fun p => decide (p.1 = e.name))) = none := by
    rw [List.find?_eq_none]
    intro p hp
    rcases List.mem_map.mp hp with ⟨x, hx, rfl⟩
    simpa using hpre x hx
  rw [hnone]
  simp only [Option.none_or, List.map_cons]
  rw [List.find?_cons_of_pos _ (by simp)]

/-- The fresh-file content of claim C3's hypothesis: the archived entry
with its User Notes Block removed (exactly the removal the change
detector performs). -/
lemma c3_step_unchanged (index : List (Str × Str × Option Str))
    (σ0 : List (Str × Str)) (nm : Str) (e : AEntry)
    (hsid : sessionKey nm (stripNotes e.content) =
      sessionKey e.name e.content)
    (hkey : sessionKey e.name e.content ≠ none)
    (hlook : ∀ k, sessionKey e.name e.content = some k →
      lookupIndex index k = some (e.name, extractUserNotes e.content))
    (hread : lookupA σ0 e.name = e.content) :
    ∀ st ws, reconStep index ⟨σ0, st, ws⟩ (nm, stripNotes e.content) =
      ⟨σ0, bumpUnch st, ws⟩ := by
  intro st ws
  cases hk : sessionKey e.name e.content with
  | none => exact absurd hk hkey
  | some k =>
    unfold reconStep
    dsimp only
    rw [hsid, hk]
    dsimp only
    rw [hlook k hk]
    dsimp only
    rw [hread]
    have hcmp : rstrip (stripNotes e.content) =
        rstrip (oldWithoutNotes e.content (extractUserNotes e.content)) := by
      unfold stripNotes oldWithoutNotes
      cases hn : extractUserNotes e.content with
      | none => rfl
      | some n =>
        dsimp only
        rw [if_pos (by
          simp only [Bool.and_eq_true]
          exact ⟨by simpa using extractUserNotes_ne_nil hn,
            extractUserNotes_contained hn⟩)]
        rw [rstrip_idem]
    rw [if_pos hcmp]

def addUnch (s : RStats) (n : Nat) : RStats :=
  { s with unchanged := s.unchanged + n }

lemma c3_loop (index : List (Str × Str × Option Str)) (σ0 : List (Str × Str)) :
    ∀ (fs : List (Str × Str)) (st : RStats) (ws : List (Str × Str)),
    (∀ f ∈ fs, ∀ st' ws', reconStep index ⟨σ0, st', ws'⟩ f = ⟨σ0, bumpUnch st', ws'⟩) →
    updateLoop index ⟨σ0, st, ws⟩ fs = ⟨σ0, addUnch st fs.length, ws⟩ := by
  intro fs
  induction fs with
  | nil =>
    intro st ws _
    simp [updateLoop, addUnch]
  | cons f rest ih =>
    intro st ws hall
    rw [updateLoop]
    rw [hall f (by simp) st ws]
    rw [ih (bumpUnch st) ws (fun g hg => hall g (by simp [hg]))]
    unfold addUnch bumpUnch
    simp
    omega

/-- Claim C3: if the archive holds `N` entries (distinct filenames,
every entry with an extractable session key, all keys distinct) and the
collaborator reproduces exactly those `N` transcripts (glob-matching
fresh names, each fresh file carrying the same truncated session id and
content equal to its archived counterpart with the User Notes Block
removed), then reconciliation performs no write at all (`writes = []`,
archive contents unchanged) and reports
`updated = 0, new = 0, unchanged = N, skipped = 0`. -/
theorem claim_C3 (entries : List AEntry) (freshNames : List Str)
    (hLen : freshNames.length = entries.length)
    (hNames : (entries.map (·.name)).Nodup)
    (hKeys : ∀ e ∈ entries, entryKey e ≠ none)
    (hNodup : (keysOf entries).Nodup)
    (hFreshSid : ∀ p ∈ entries.zip freshNames,
        sessionKey p.2 (stripNotes p.1.content) = sessionKey p.1.name p.1.content)
    (hGlobs : ∀ nm ∈ freshNames, globMatch nm = true) :
    updateExtracts entries
        ((entries.zip freshNames).map (fun p => (p.2, stripNotes p.1.content))) =
      { files := entries.map (fun e => (e.name, e.content))
        stats := ⟨0, 0, entries.length, 0, 0⟩
        writes := [] } := by
  unfold updateExtracts
  have hglob2 : ∀ f ∈ (entries.zip freshNames).map
      (fun p => (p.2, stripNotes p.1.content)), globMatch f.1 = true := by
    intro f hf
    rcases List.mem_map.mp hf with ⟨p, hp, rfl⟩
    exact hGlobs p.2 (List.of_mem_zip hp).2
  rw [List.filter_eq_self.mpr hglob2]
  have hall : ∀ f ∈ (entries.zip freshNames).map
      (fun p => (p.2, stripNotes p.1.content)),
      ∀ st' ws', reconStep (getExistingFiles entries)
        ⟨entries.map (fun e => (e.name, e.content)), st', ws'⟩ f =
        ⟨entries.map (fun e => (e.name, e.content)), bumpUnch st', ws'⟩ := by
    intro f hf
    rcases List.mem_map.mp hf with ⟨p, hp, rfl⟩
    have hmem : p.1 ∈ entries := (List.of_mem_zip hp).1
    refine c3_step_unchanged (getExistingFiles entries)
      (entries.map (fun e => (e.name, e.content))) p.2 p.1
      (hFreshSid p hp) (hKeys p.1 hmem) ?_ (lookupA_map hNames hmem)
    intro k hk
    exact lookup_getExistingFiles hNodup hmem hk
  rw [c3_loop (getExistingFiles entries)
    (entries.map (fun e => (e.name, e.content))) _ zeroStats [] hall]
  rw [List.length_map, List.length_zip, hLen]
  simp [addUnch, zeroStats]

def c3wEntries : List AEntry :=
  [⟨chars "a.md", chars "Session ID: aaaa1111\nbody A\n"⟩,
   ⟨chars "b.md",
    chars "Session ID: bbbb2222\nbody B\n\n" ++ userNotesStart ++
      chars "\nnote\n" ++ userNotesEnd ++ chars "\n"⟩]

def c3wNames : List Str :=
  [chars "claude-conversation-2026-01-13-aaaa1111.md",
   chars "claude-conversation-2026-01-13-bbbb2222.md"]

/-- Claim C3 (witness): a two-entry archive (one entry with a notes
block) reconciled against its own two transcripts with the notes
removed: nothing is written and the counts are
`updated = 0, new = 0, unchanged = 2, skipped = 0`. -/
theorem claim_C3_witness :
    updateExtracts c3wEntries
        ((c3wEntries.zip c3wNames).map (fun p => (p.2, stripNotes p.1.content))) =
      { files := c3wEntries.map (fun e => (e.name, e.content))
        stats := ⟨0, 0, c3wEntries.length, 0, 0⟩
        writes := [] } :=
  claim_C3 c3wEntries c3wNames
    (by decide) (by decide) (by decide) (by decide) (by decide) (by decide)

/-! ## Renamer idempotence (claim C2) -/

/-- The persisted end date of a content with a valid start header. -/
def endOf (c : Str) : Option PDate :=
  match extractStartDate c with
  | .found sd => some (computeEnd c sd)
  | _ => none

/-- Claim C2 (amended): re-running `process_file` on its own output
produces the same target filename, identical frontmatter, the identical
content, and deletes no file (`renamed = false`), **provided** the
rewrite did not disturb the extracted metadata — same session id, same
start and end dates, same project, same agent classification and
description (the new filename or injected frontmatter can change these,
e.g. a description containing `agent-` flips the agent flag), the
frontmatter strip round-trips, and the directory still resolves the
collision loop to the file's own name.  Unconditionally the original
claim is false (see the counterexample). -/
theorem claim_C2_amended (fname c0 : Str) (occ occ2 : List Str) (r1 : RenResult)
    (h0 : processFile fname c0 occ = ProcResult.ok r1)
    (hSid : extractSessionIdRename r1.newContent = extractSessionIdRename c0)
    (hStart : extractStartDate r1.newContent = extractStartDate c0)
    (hEnd : endOf r1.newContent = endOf c0)
    (hProj : extractProjectName r1.newContent = extractProjectName c0)
    (hAgent : isAgentSession r1.newContent r1.newName = isAgentSession c0 fname)
    (hDesc : generateDescription r1.newContent (extractProjectName r1.newContent)
        r1.newName = generateDescription c0 (extractProjectName c0) fname)
    (hStrip : stripExisting r1.newContent = stripExisting c0)
    (hColl : resolveCollision occ2 r1.newName r1.baseName r1.stemName = r1.newName) :
    processFile r1.newName r1.newContent occ2 =
      ProcResult.ok { r1 with renamed := false } := by
  unfold processFile at h0
  cases hs : extractSessionIdRename c0 with
  | none =>
    rw [hs] at h0
    exact absurd h0 (by simp)
  | some sid =>
    rw [hs] at h0
    dsimp only at h0
    cases hd : extractStartDate c0 with
    | noMatch =>
      rw [hd] at h0
      exact absurd h0 (by simp)
    | invalid =>
      rw [hd] at h0
      exact absurd h0 (by simp)
    | found sd =>
      rw [hd] at h0
      dsimp only at h0
      injection h0 with hr
      -- projection equations for the first run's result
      have hNm : r1.newName = resolveCollision occ fname r1.baseName r1.stemName := by
        rw [← hr]; rfl
      have hBase : r1.baseName = mkFilename sd (computeEnd c0 sd)
          (generateDescription c0 (extractProjectName c0) fname) := by
        rw [← hr]; rfl
      have hStem : r1.stemName = mkStem sd (computeEnd c0 sd)
          (generateDescription c0 (extractProjectName c0) fname) := by
        rw [← hr]; rfl
      have hFm : r1.frontmatter = mkFrontmatter sid
          (mkTitle (generateDescription c0 (extractProjectName c0) fname)) sd
          (computeEnd c0 sd) (extractProjectName c0) (isAgentSession c0 fname) := by
        rw [← hr]; rfl
      have hCont : r1.newContent = r1.frontmatter ++ stripExisting c0 := by
        rw [← hr]; rfl
      have hDescr : r1.description =
          generateDescription c0 (extractProjectName c0) fname := by
        rw [← hr]; rfl
      have hSidf : r1.sid = sid := by rw [← hr]; rfl
      have hSd : r1.startD = sd := by rw [← hr]; rfl
      have hEd : r1.endD = computeEnd c0 sd := by rw [← hr]; rfl
      -- end-date stability in usable form
      have hE : computeEnd r1.newContent sd = computeEnd c0 sd := by
        have h := hEnd
        unfold endOf at h
        rw [hStart, hd] at h
        dsimp only at h
        injection h
      -- compute the second run
      unfold processFile
      rw [hSid, hs]
      dsimp only
      rw [hStart, hd]
      dsimp only
      have hRhs : ({ r1 with renamed := false } : RenResult) =
          RenResult.mk r1.newName r1.newContent false r1.frontmatter
            r1.description r1.sid r1.startD r1.endD r1.baseName r1.stemName := rfl
      rw [hRhs]
      unfold processCore
      dsimp only
      refine congrArg ProcResult.ok ?_
      have hBase2 : mkFilename sd (computeEnd r1.newContent sd)
          (generateDescription r1.newContent (extractProjectName r1.newContent)
            r1.newName) = r1.baseName := by
        rw [hE, hDesc, hBase]
      have hStem2 : mkStem sd (computeEnd r1.newContent sd)
          (generateDescription r1.newContent (extractProjectName r1.newContent)
            r1.newName) = r1.stemName := by
        rw [hE, hDesc, hStem]
      have hName2 : resolveCollision occ2 r1.newName
          (mkFilename sd (computeEnd r1.newContent sd)
            (generateDescription r1.newContent (extractProjectName r1.newContent)
              r1.newName))
          (mkStem sd (computeEnd r1.newContent sd)
            (generateDescription r1.newContent (extractProjectName r1.newContent)
              r1.newName)) = r1.newName := by
        rw [hBase2, hStem2, hColl]
      have hFm2 : mkFrontmatter sid
          (mkTitle (generateDescription r1.newContent
            (extractProjectName r1.newContent) r1.newName)) sd
          (computeEnd r1.newContent sd) (extractProjectName r1.newContent)
          (isAgentSession r1.newContent r1.newName) = r1.frontmatter := by
        rw [hDesc, hE, hProj, hAgent, hFm]
      rw [RenResult.mk.injEq]
      refine ⟨hName2, ?_, ?_, hFm2, ?_, hSidf.symm, hSd.symm,
        (by rw [hE, hEd]), hBase2, hStem2⟩
      · rw [hFm2, hStrip, hCont]
      · rw [hName2]
        simp
      · rw [hDesc, hDescr]

def okOr : ProcResult → RenResult
  | .ok r => r
  | _ => ⟨[], [], false, [], [], [], ⟨0, 0, 0⟩, ⟨0, 0, 0⟩, [], []⟩

def c2cexC0 : Str :=
  chars "Session ID: abcd1234\nDate: 2026-01-13\nWorking directory: C:\\Users\\b\\Projects\\my-agent-x\n"

def c2cexR1 : RenResult := okOr (processFile (chars "chat.md") c2cexC0 [])

def c2cexR2 : RenResult :=
  okOr (processFile c2cexR1.newName c2cexR1.newContent [c2cexR1.newName])

/-- Claim C2 (counterexample): processing a transcript whose project
name is `my-agent-x` renames the file to
`01-13-2026--01-13-2026-my-agent-x.md`; re-running on that output now
sees `agent-` in its own filename, classifies the session as a
subagent, and produces the different name
`01-13-2026--01-13-2026-my-agent-x-subagent.md` with different
frontmatter and content, and with `renamed = true` (so the second run
deletes the first run's file): re-running is not idempotent. -/
theorem claim_C2_counterexample :
    processFile (chars "chat.md") c2cexC0 [] = ProcResult.ok c2cexR1
    ∧ processFile c2cexR1.newName c2cexR1.newContent [c2cexR1.newName]
        = ProcResult.ok c2cexR2
    ∧ c2cexR2.newName ≠ c2cexR1.newName
    ∧ c2cexR2.frontmatter ≠ c2cexR1.frontmatter
    ∧ c2cexR2.newContent ≠ c2cexR1.newContent
    ∧ c2cexR2.renamed = true := by decide

def c2wC0 : Str := chars "Session ID: abcd1234\nDate: 2026-01-13\n"

def c2wR1 : RenResult := okOr (processFile (chars "w.md") c2wC0 [])

/-- Claim C2 (witness): on a transcript whose rewrite disturbs no
extracted metadata, the second run reproduces the first run's name,
frontmatter and content exactly and deletes nothing. -/
theorem claim_C2_witness :
    processFile c2wR1.newName c2wR1.newContent [c2wR1.newName] =
      ProcResult.ok { c2wR1 with renamed := false } :=
  claim_C2_amended (chars "w.md") c2wC0 [] [c2wR1.newName] c2wR1
    (by decide) (by decide) (by decide) (by decide) (by decide)
    (by decide) (by decide) (by decide) (by decide)
